import Mathlib

/-!
# Verification of the peji-kb webhook delivery and retry engine

This file gives a shallow embedding, in Lean 4, of the webhook subsystem of
the peji-kb repository and proves (or refutes) the frozen specification
claims about it.

The embedded code comes from:

* the webhook manager service (`signWebhook`, `dispatchWebhook`,
  `startWebhookWorker`): dispatching events, the delivery ledger
  (`webhook_events` table) and the background retry worker;
* the subscription registration endpoints `createWebhook`
  (`src/controllers/apiController.mjs`) and `createUserWebhook`
  (admin controller);
* the `webhooks` / `webhook_events` SQLite schema.

External collaborators (the SQLite engine, the WHATWG URL parser, the
`fetch` HTTP client, `Date.now`, and Node's `crypto` HMAC-SHA256) are
modelled as follows: the database tables are plain Lean lists, the URL
parser is passed as a function parameter returning the protocol of a
parseable URL, transport outcomes are an oracle `net : String → Bool`
(`true` = transport success; HTTP statuses are invisible, as in the code,
because `fetch` only rejects on transport failure), timestamps are `Nat`
parameters, and HMAC-SHA256 is implemented bit-faithfully (FIPS 180-4 /
RFC 2104) over byte lists.
-/

namespace Peji

/-! ## Configuration constants (webhook manager service) -/

def MAX_RETRY_ATTEMPTS : Nat := 5

def BATCH_SIZE : Nat := 10

/-! ## Data model: the `webhooks` and `webhook_events` tables

`webhooks(id, user_id, url, secret, events, active, created_at)` where
`events` is a CSV string of subscribed events; we keep the parsed list of
names next to nothing else because only membership matters.
`webhook_events(id, user_id, event, payload, created_at, delivered_at,
attempts)`; note the schema default `attempts INTEGER DEFAULT 0`. -/

structure Webhook where
  id : Nat
  userId : Nat
  url : String
  secret : String
  events : List String
  active : Bool
deriving DecidableEq, Repr

structure DeliveryRecord where
  id : Nat
  userId : Nat
  event : String
  payload : String
  createdAt : Nat
  deliveredAt : Option Nat
  attempts : Nat
deriving DecidableEq, Repr

/-- The persistent store shared by the dispatcher and the retry worker.
`nextId` models SQLite `AUTOINCREMENT` for `webhook_events`. -/
structure St where
  webhooks : List Webhook
  ledger : List DeliveryRecord
  nextId : Nat
deriving DecidableEq, Repr

/-! ## Dispatcher (`dispatchWebhook`) -/

/-- The dispatcher's target query:
`SELECT * FROM webhooks WHERE user_id = ? AND active = 1`.
Note that the query does not constrain the `events` column. -/
def resolveHooks (s : St) (userId : Nat) : List Webhook :=
  s.webhooks.filter fun w => w.userId == userId && w.active

/-- The URLs the dispatcher POSTs to: one `fetch(hook.url, ...)` per row of
`resolveHooks`, fire-and-forget. -/
def dispatchAttempts (s : St) (userId : Nat) : List String :=
  (resolveHooks s userId).map (fun w => w.url)

/-- `dispatchWebhook(userId, event, payloadObj)`: for every active webhook
of the user, attempt one delivery and insert one ledger row; on transport
success the row has `delivered_at = CURRENT_TIMESTAMP, attempts = 1`, on
transport failure `delivered_at` is left NULL and `attempts = 1`.
The serialized payload (`JSON.stringify({event, data})`) is taken as an
opaque string parameter; `net url = true` models a resolved `fetch`. -/
def dispatchW (s : St) (userId : Nat) (event payload : String)
    (net : String → Bool) (now : Nat) : St :=
  (resolveHooks s userId).foldl
    (fun st h =>
      { st with
        ledger := st.ledger ++
          [{ id := st.nextId, userId := userId, event := event,
             payload := payload, createdAt := now,
             deliveredAt := if net h.url then some now else none,
             attempts := 1 }],
        nextId := st.nextId + 1 })
    s

/-! ## Retry worker (`startWebhookWorker`), one tick -/

/-- The worker's selection join, before `ORDER BY`/`LIMIT`:
`FROM webhook_events we JOIN webhooks w ON w.user_id = we.user_id
WHERE we.delivered_at IS NULL AND w.active = 1 AND we.attempts < ?`.
The join key is only `user_id`; neither `we.event` nor `w.events` is
constrained. -/
def eligiblePairs (s : St) : List (DeliveryRecord × Webhook) :=
  s.ledger.flatMap fun r =>
    if r.deliveredAt = none ∧ r.attempts < MAX_RETRY_ATTEMPTS then
      (s.webhooks.filter fun w => w.userId == r.userId && w.active).map
        fun w => (r, w)
    else []

/-- `ORDER BY we.created_at ASC LIMIT ?` applied to the join result. -/
def batchW (s : St) : List (DeliveryRecord × Webhook) :=
  (List.insertionSort (fun p q : DeliveryRecord × Webhook =>
    p.1.createdAt ≤ q.1.createdAt) (eligiblePairs s)).take BATCH_SIZE

/-- The URLs a single tick POSTs to (one `fetch(row.url, ...)` per selected
join row). -/
def tickAttempts (s : St) : List String :=
  (batchW s).map fun p => p.2.url

/-- The per-row UPDATE: on success
`SET delivered_at = CURRENT_TIMESTAMP, attempts = attempts + 1 WHERE id = ?`,
on failure `SET attempts = attempts + 1 WHERE id = ?`. -/
def applyOutcome (led : List DeliveryRecord) (rid : Nat) (ok : Bool)
    (now : Nat) : List DeliveryRecord :=
  led.map fun r =>
    if r.id = rid then
      if ok then { r with deliveredAt := some now, attempts := r.attempts + 1 }
      else { r with attempts := r.attempts + 1 }
    else r

/-- One tick of the worker: select the batch once, then attempt each row
sequentially (`for ... of undelivered` with awaited `fetch`), updating the
ledger row by `id` after each attempt. -/
def tickW (s : St) (net : String → Bool) (now : Nat) : St :=
  { s with
    ledger := (batchW s).foldl
      (fun led p => applyOutcome led p.1.id (net p.2.url) now) s.ledger }

/-! ## The step relation of the store

A state evolves by a dispatcher call, a worker tick, or a Subscription
Registry mutation (create / deactivate / delete webhooks), which touches
only the `webhooks` table. -/

inductive Step : St → St → Prop
  | dispatch (s : St) (userId : Nat) (event payload : String)
      (net : String → Bool) (now : Nat) :
      Step s (dispatchW s userId event payload net now)
  | tick (s : St) (net : String → Bool) (now : Nat) :
      Step s (tickW s net now)
  | registry (s : St) (ws : List Webhook) :
      Step s { s with webhooks := ws }

/-- Finitely many steps. -/
inductive Steps : St → St → Prop
  | refl (s : St) : Steps s s
  | tail {s t u : St} : Steps s t → Step t u → Steps s u

/-- States reachable from a boot state (empty ledger, any webhook table,
any `AUTOINCREMENT` seed). -/
inductive Reach : St → Prop
  | init (ws : List Webhook) (n : Nat) : Reach { webhooks := ws, ledger := [], nextId := n }
  | step {s t : St} : Reach s → Step s t → Reach t

/-! ## Subscription registration

Embedding of `createWebhook` (self-service controller) and
`createUserWebhook` (admin controller).  The WHATWG URL parser (`new URL`)
is an external collaborator and is passed in as `parseProto`, which returns
`some protocol` (e.g. `some "https:"`) when the URL string parses and
`none` when the constructor throws.  `process.env.NODE_ENV === 'production'`
is the `isProd` flag, and `!!req.session` is the `isBrowser` flag. -/

/-- The fixed event taxonomy `ALLOWED_WEBHOOK_EVENTS` (identical lists in
both controllers). -/
def ALLOWED_WEBHOOK_EVENTS : List String :=
  ["favorite.added", "favorite.removed",
   "note.updated", "snippets.updated",
   "reading.started", "reading.stopped",
   "site.started", "site.stopped"]

/-- JavaScript `String.prototype.split(',')`, embedded structurally over
the character list (`"".split(',')` is `[""]`, separators are not
collapsed). -/
def splitOnCommaAux : List Char → List Char → List String
  | [], acc => [String.mk acc.reverse]
  | c :: cs, acc =>
    if c = ',' then String.mk acc.reverse :: splitOnCommaAux cs []
    else splitOnCommaAux cs (c :: acc)

def splitOnComma (s : String) : List String := splitOnCommaAux s.data []

/-- JavaScript `String.prototype.trim()`, embedded structurally over the
character list. -/
def trimStr (s : String) : String :=
  String.mk (((s.data.dropWhile fun c => c.isWhitespace).reverse.dropWhile
    fun c => c.isWhitespace).reverse)

/-- The request's `events` field: a JSON array or a string
(`Array.isArray(events) ? events : String(events).split(',')`). -/
inductive EventsInput where
  | arr (l : List String)
  | str (s : String)
deriving DecidableEq, Repr

/-- A row of the `webhooks` table as written by the two INSERT statements
(both store `validEvents.join(',')` in the `events` column and `active = 1`). -/
structure StoredWebhookRow where
  userId : Nat
  url : String
  secret : String
  eventsCsv : String
  active : Bool
deriving DecidableEq, Repr

/-- JavaScript truthiness of the `events` field used by
`if (!url || !secret || !events)`: a missing field and the empty string are
falsy, every array (also `[]`) is truthy. -/
def eventsTruthy : Option EventsInput → Bool
  | none => false
  | some (.arr _) => true
  | some (.str s) => s ≠ ""

/-- `Array.isArray(events) ? events : String(events).split(',')`
(a missing field stringifies to `"undefined"`). -/
def eventListOf : Option EventsInput → List String
  | none => ["undefined"]
  | some (.arr l) => l
  | some (.str s) => splitOnComma s

/-- `const normalizedEvents = eventList.map(e => e.trim()).filter(Boolean)`. -/
def normalizedEventsOf (events : Option EventsInput) : List String :=
  ((eventListOf events).map trimStr).filter fun e2 => e2 ≠ ""

/-- `const validEvents = normalizedEvents.filter(e => ALLOWED_WEBHOOK_EVENTS.includes(e))`. -/
def validEventsOf (events : Option EventsInput) : List String :=
  (normalizedEventsOf events).filter fun e2 => e2 ∈ ALLOWED_WEBHOOK_EVENTS

/-- The admin controller's
`inputEvents.map(e => e.trim()).filter(e => ALLOWED_WEBHOOK_EVENTS.includes(e))`
(no `filter(Boolean)` step there). -/
def adminValidEventsOf (events : Option EventsInput) : List String :=
  ((eventListOf events).map trimStr).filter
    fun e2 => e2 ∈ ALLOWED_WEBHOOK_EVENTS

/-- `createWebhook` from the self-service API controller.  Returns the row
the INSERT persists, or `none` when the request is rejected (redirect or
JSON error — the claims only distinguish persisted vs not persisted). -/
def createWebhook (parseProto : String → Option String) (isProd : Bool)
    (isBrowser : Bool) (userId : Nat) (url secret : String)
    (events : Option EventsInput) : Option StoredWebhookRow :=
  -- 1. basic validation: if (!url || !secret || !events) reject
  if url = "" ∨ secret = "" ∨ eventsTruthy events = false then none
  else
    -- 2. URL validation
    match parseProto url with
    | none => none
    | some proto =>
      if proto ≠ "https:" ∧ isProd then none
      else if ¬ (proto = "http:" ∨ proto = "https:") then none
      else
        -- 3. event validation
        if isBrowser = false ∧
            ¬ (∀ e2 ∈ normalizedEventsOf events,
                e2 ∈ ALLOWED_WEBHOOK_EVENTS) then none
        else
          if isBrowser = true ∧ validEventsOf events = [] then none
          else
            -- 4. persistence
            some { userId := userId, url := url, secret := secret,
                   eventsCsv := String.intercalate "," (validEventsOf events),
                   active := true }

/-- `createUserWebhook` from the admin controller: no missing-field check,
URL validation as above, then invalid event names are silently filtered and
the call is rejected only when no valid event remains. -/
def createUserWebhook (parseProto : String → Option String) (isProd : Bool)
    (userId : Nat) (url secret : String)
    (events : Option EventsInput) : Option StoredWebhookRow :=
  match parseProto url with
  | none => none
  | some proto =>
    if proto ≠ "https:" ∧ isProd then none
    else if ¬ (proto = "http:" ∨ proto = "https:") then none
    else
      if adminValidEventsOf events = [] then none
      else
        some { userId := userId, url := url, secret := secret,
               eventsCsv := String.intercalate "," (adminValidEventsOf events),
               active := true }

/-! ## The signer (`signWebhook`)

The service computes
`crypto.createHmac('sha256', secret).update(String(timestamp)).update('.').update(body).digest('hex')`.
Node's crypto module is an external collaborator; we embed it by
implementing SHA-256 (FIPS 180-4) and HMAC (RFC 2104, block size 64) over
byte lists, machine words being `Nat` reduced mod `2 ^ 32`.  Strings are
handled at the byte level (`secret` and `body` enter as their UTF-8 byte
lists, `String(timestamp)` is the decimal digit bytes of the timestamp). -/

def u32 (n : Nat) : Nat := n % 4294967296

def rotr32 (n x : Nat) : Nat := u32 ((x >>> n) ||| (x <<< (32 - n)))

def bigSigma0 (x : Nat) : Nat := (rotr32 2 x) ^^^ (rotr32 13 x) ^^^ (rotr32 22 x)

def bigSigma1 (x : Nat) : Nat := (rotr32 6 x) ^^^ (rotr32 11 x) ^^^ (rotr32 25 x)

def smallSigma0 (x : Nat) : Nat := (rotr32 7 x) ^^^ (rotr32 18 x) ^^^ (x >>> 3)

def smallSigma1 (x : Nat) : Nat := (rotr32 17 x) ^^^ (rotr32 19 x) ^^^ (x >>> 10)

def chFn (x y z : Nat) : Nat := (x &&& y) ^^^ ((x ^^^ 4294967295) &&& z)

def majFn (x y z : Nat) : Nat := (x &&& y) ^^^ (x &&& z) ^^^ (y &&& z)

/-- The 64 SHA-256 round constants (FIPS 180-4 §4.2.2), in decimal. -/
def sha256K : List Nat :=
  [1116352408, 1899447441, 3049323471,
   3921009573, 961987163, 1508970993,
   2453635748, 2870763221, 3624381080,
   310598401, 607225278, 1426881987,
   1925078388, 2162078206, 2614888103,
   3248222580, 3835390401, 4022224774,
   264347078, 604807628, 770255983,
   1249150122, 1555081692, 1996064986,
   2554220882, 2821834349, 2952996808,
   3210313671, 3336571891, 3584528711,
   113926993, 338241895, 666307205,
   773529912, 1294757372, 1396182291,
   1695183700, 1986661051, 2177026350,
   2456956037, 2730485921, 2820302411,
   3259730800, 3345764771, 3516065817,
   3600352804, 4094571909, 275423344,
   430227734, 506948616, 659060556,
   883997877, 958139571, 1322822218,
   1537002063, 1747873779, 1955562222,
   2024104815, 2227730452, 2361852424,
   2428436474, 2756734187, 3204031479,
   3329325298]

/-- SHA-256 working state (registers a..h). -/
structure Hash8 where
  a : Nat
  b : Nat
  c : Nat
  d : Nat
  e : Nat
  f : Nat
  g : Nat
  h : Nat
deriving DecidableEq, Repr

/-- The eight SHA-256 initial hash values (FIPS 180-4 §5.3.3), in decimal. -/
def sha256Init : Hash8 :=
  { a := 1779033703, b := 3144134277, c := 1013904242, d := 2773480762,
    e := 1359893119, f := 2600822924, g := 528734635, h := 1541459225 }

/-- The eight big-endian bytes of the 64-bit message length (in bits). -/
def lenBytes64 (n : Nat) : List Nat :=
  [(n >>> 56) &&& 255, (n >>> 48) &&& 255, (n >>> 40) &&& 255,
   (n >>> 32) &&& 255, (n >>> 24) &&& 255, (n >>> 16) &&& 255,
   (n >>> 8) &&& 255, n &&& 255]

/-- FIPS 180-4 padding: append `0x80`, then zeros to 56 mod 64, then the
bit length as 8 big-endian bytes. -/
def padMessage (msg : List Nat) : List Nat :=
  msg ++ [128] ++ List.replicate ((119 - msg.length % 64) % 64) 0 ++
    lenBytes64 (msg.length * 8)

/-- Split a byte list into 64-byte blocks. -/
def toBlocks (l : List Nat) : List (List Nat) :=
  if hl : l = [] then []
  else
    have : l.length - 64 < l.length := by
      have : 0 < l.length := List.length_pos.mpr hl
      omega
    l.take 64 :: toBlocks (l.drop 64)
termination_by l.length
decreasing_by simpa using this

/-- Big-endian 32-bit words of one block. -/
def blockWords : List Nat → List Nat
  | b0 :: b1 :: b2 :: b3 :: rest =>
      (((b0 * 256 + b1) * 256 + b2) * 256 + b3) :: blockWords rest
  | _ => []

/-- One message-schedule extension step: append
`σ1(w[t-2]) + w[t-7] + σ0(w[t-15]) + w[t-16]` mod `2 ^ 32`. -/
def extendOnce (w : List Nat) : List Nat :=
  w ++ [u32 (smallSigma1 (w.getD (w.length - 2) 0) + w.getD (w.length - 7) 0 +
        smallSigma0 (w.getD (w.length - 15) 0) + w.getD (w.length - 16) 0)]

/-- The 64-entry message schedule of a block. -/
def schedule (block : List Nat) : List Nat :=
  extendOnce^[48] (blockWords block)

/-- One SHA-256 round. -/
def sha256Round (st : Hash8) (k w : Nat) : Hash8 :=
  let t1 := u32 (st.h + bigSigma1 st.e + chFn st.e st.f st.g + k + w)
  let t2 := u32 (bigSigma0 st.a + majFn st.a st.b st.c)
  { a := u32 (t1 + t2), b := st.a, c := st.b, d := st.c,
    e := u32 (st.d + t1), f := st.e, g := st.f, h := st.g }

/-- Compress one 64-byte block into the chaining state. -/
def compressBlock (st : Hash8) (block : List Nat) : Hash8 :=
  let fin := (sha256K.zip (schedule block)).foldl
    (fun s kw => sha256Round s kw.1 kw.2) st
  { a := u32 (st.a + fin.a), b := u32 (st.b + fin.b),
    c := u32 (st.c + fin.c), d := u32 (st.d + fin.d),
    e := u32 (st.e + fin.e), f := u32 (st.f + fin.f),
    g := u32 (st.g + fin.g), h := u32 (st.h + fin.h) }

/-- Big-endian bytes of one 32-bit word. -/
def wordBytes (w : Nat) : List Nat :=
  [(w >>> 24) &&& 255, (w >>> 16) &&& 255, (w >>> 8) &&& 255, w &&& 255]

def digestBytes (st : Hash8) : List Nat :=
  [st.a, st.b, st.c, st.d, st.e, st.f, st.g, st.h].flatMap wordBytes

/-- SHA-256 of a byte list, as its 32 digest bytes. -/
def sha256 (msg : List Nat) : List Nat :=
  digestBytes ((toBlocks (padMessage msg)).foldl compressBlock sha256Init)

/-- HMAC-SHA256 (RFC 2104, block size 64, opad `0x5c`, ipad `0x36`). -/
def hmacSha256 (key msg : List Nat) : List Nat :=
  let k1 := if 64 < key.length then sha256 key else key
  let k0 := k1 ++ List.replicate (64 - k1.length) 0
  sha256 ((k0.map fun b => b ^^^ 92) ++
    sha256 ((k0.map fun b => b ^^^ 54) ++ msg))

/-- Lower-case hex digit of a value `< 16`. -/
def hexChar (n : Nat) : Char :=
  if n < 10 then Char.ofNat (48 + n) else Char.ofNat (87 + n)

/-- `digest('hex')`: two lower-case hex characters per byte. -/
def hexEncode (bytes : List Nat) : String :=
  String.mk (bytes.flatMap fun b => [hexChar (b / 16), hexChar (b % 16)])

/-- The decimal byte rendering `String(timestamp)`. -/
def decBytes (n : Nat) : List Nat :=
  if n = 0 then [48] else ((Nat.digits 10 n).reverse).map fun d => d + 48

/-- The exact byte string fed to the HMAC:
`String(timestamp)`, then the literal `.` (byte 46), then the raw body. -/
def signMessage (timestamp : Nat) (body : List Nat) : List Nat :=
  decBytes timestamp ++ 46 :: body

/-- `signWebhook(secret, timestamp, body)`: hex-encoded HMAC-SHA256, keyed
by the secret, of `timestamp + "." + body`. -/
def signWebhook (secret : List Nat) (timestamp : Nat) (body : List Nat) :
    String :=
  hexEncode (hmacSha256 secret (signMessage timestamp body))

/-! ## Derived forms and concrete scenarios used by the theorems -/

/-- The ledger after a tick, as a fold of the per-row updates over the
selected batch (definitionally the ledger of `tickW`). -/
def ledFold (batch : List (DeliveryRecord × Webhook)) (net : String → Bool)
    (now : Nat) (led : List DeliveryRecord) : List DeliveryRecord :=
  batch.foldl (fun l p => applyOutcome l p.1.id (net p.2.url) now) led

/-- The ledger rows one dispatcher call appends, one per resolved webhook in
order, with consecutive `AUTOINCREMENT` ids starting at `n`. -/
def recordsFor (u : Nat) (e p : String) (net : String → Bool) (now : Nat) :
    Nat → List Webhook → List DeliveryRecord
  | _, [] => []
  | n, w :: ws =>
    { id := n, userId := u, event := e, payload := p, createdAt := now,
      deliveredAt := if net w.url then some now else none, attempts := 1 } ::
      recordsFor u e p net now (n + 1) ws

/-- `k` worker ticks during which every transport attempt fails, ticking at
times `tm 0, tm 1, ...`. -/
def failTicks : Nat → (Nat → Nat) → St → St
  | 0, _, s => s
  | k + 1, tm, s => tickW (failTicks k tm s) (fun _ => false) (tm k)

/-- A single-subscription boot state: one webhook, empty ledger. -/
def singleHookSt (w : Webhook) (n : Nat) : St :=
  { webhooks := [w], ledger := [], nextId := n }

/-- The final state of the at-least-once scenario (claim C2): one dispatch
whose attempt succeeds only when `N = 1`, then `N - 2` failing ticks, then
one succeeding tick. -/
def c2Final (w : Webhook) (e p : String) (n0 : Nat) (tm : Nat → Nat)
    (N : Nat) : St :=
  if N = 1 then
    dispatchW (singleHookSt w n0) w.userId e p (fun _ => true) (tm 0)
  else
    tickW
      (failTicks (N - 2) tm
        (dispatchW (singleHookSt w n0) w.userId e p (fun _ => false) (tm 0)))
      (fun _ => true) (tm 99)

/-- The exhaustion scenario (claim C6): one dispatch against an endpoint
that always fails at transport, then four failing ticks. -/
def c6Final (w : Webhook) (e p : String) (n0 : Nat) (tm : Nat → Nat) : St :=
  failTicks 4 tm
    (dispatchW (singleHookSt w n0) w.userId e p (fun _ => false) (tm 0))

/-- A concrete webhook subscribed only to `note.updated` (claims C1/C8). -/
def hookA : Webhook :=
  { id := 1, userId := 7, url := "https://a.example/cb", secret := "sa",
    events := ["note.updated"], active := true }

/-- A second concrete webhook of the same user (claim C8). -/
def hookB : Webhook :=
  { id := 2, userId := 7, url := "https://b.example/cb", secret := "sb",
    events := ["site.started"], active := true }

/-- The state after dispatching `favorite.added` — an event `hookA` is not
subscribed to — with a failing transport (claim C1). -/
def c1State : St :=
  dispatchW (singleHookSt hookA 100) 7 "favorite.added" "p" (fun _ => false) 0

/-- Claim C8 counterexample state: a record produced by dispatch to `hookA`
(the only subscription at dispatch time, transport failed), after which
`hookA` is deactivated and `hookB` is registered. -/
def c8State : St :=
  let s1 := dispatchW (singleHookSt hookA 100) 7 "note.updated" "p"
    (fun _ => false) 0
  { s1 with webhooks := [{ hookA with active := false }, hookB] }

/-- `c8State` with the second webhook also removed: user 7 has no active
subscription at all. -/
def c8StateOff : St :=
  { webhooks := [{ hookA with active := false }],
    ledger := c8State.ledger, nextId := c8State.nextId }

/-- A pending ledger row for the batch-ordering scenario (claim C3). -/
def pendingRec (i t : Nat) : DeliveryRecord :=
  { id := i, userId := 7, event := "note.updated", payload := "p",
    createdAt := t, deliveredAt := none, attempts := 1 }

/-- Claim C3 scenario: 12 pending records with distinct creation times, one
active subscription. -/
def c3State : St :=
  { webhooks := [hookA],
    ledger := [pendingRec 0 5, pendingRec 1 11, pendingRec 2 3,
               pendingRec 3 8, pendingRec 4 0, pendingRec 5 9,
               pendingRec 6 1, pendingRec 7 10, pendingRec 8 4,
               pendingRec 9 7, pendingRec 10 2, pendingRec 11 6],
    nextId := 12 }

/-- Little-endian base-256 value of a byte list (used only to count
digests). -/
def encBytes : List Nat → Nat
  | [] => 0
  | b :: bs => b + 256 * encBytes bs

/-- A family of pairwise-distinct bodies for the signer collision argument
(claim C9). -/
def c9Body (n : Nat) : List Nat := List.replicate n 97

/-- The numeric value of the signer's digest bytes on the `n`-th body, for
a fixed secret (`"sec"`) and timestamp. -/
def c9Digest (n : Nat) : Nat :=
  encBytes (hmacSha256 [115, 101, 99] (signMessage 1700000000000 (c9Body n)))

/-- Pointwise invariant of the ledger across one tick, relative to the
pre-tick ledger `led0`: ids and immutable fields are preserved, `attempts`
never decreases, a non-null `delivered_at` keeps its value, and
`delivered_at` changes only to `some now`, and only for a row id on which
`P` holds (`P rid` will be instantiated as "this tick made a successful
transport attempt for the row with id `rid`"). -/
def RelLed (now : Nat) (P : Nat → Prop) (led0 led : List DeliveryRecord) :
    Prop :=
  led.length = led0.length ∧
  ∀ i (h0 : i < led0.length) (h1 : i < led.length),
    led[i].id = led0[i].id ∧
    led[i].userId = led0[i].userId ∧
    led[i].event = led0[i].event ∧
    led[i].payload = led0[i].payload ∧
    led[i].createdAt = led0[i].createdAt ∧
    led0[i].attempts ≤ led[i].attempts ∧
    (∀ v, led0[i].deliveredAt = some v → led[i].deliveredAt = some v) ∧
    (led[i].deliveredAt ≠ led0[i].deliveredAt →
      led[i].deliveredAt = some now ∧ P led0[i].id)

/-- All ledger rows carrying id `rid` have hit the attempts cap, and `rid`
can never be reused by a future INSERT. -/
def Exhausted (rid : Nat) (s : St) : Prop :=
  (∀ r ∈ s.ledger, r.id = rid → MAX_RETRY_ATTEMPTS ≤ r.attempts) ∧
    rid < s.nextId

/-! ## Helper lemmas: worker selection -/

theorem mem_eligible {s : St} {p : DeliveryRecord × Webhook}
    (hp : p ∈ eligiblePairs s) :
    p.1 ∈ s.ledger ∧ p.1.deliveredAt = none ∧
      p.1.attempts < MAX_RETRY_ATTEMPTS ∧
      p.2 ∈ s.webhooks ∧ p.2.active = true ∧ p.2.userId = p.1.userId := by
  unfold eligiblePairs at hp
  rw [List.mem_flatMap] at hp
  obtain ⟨r, hr, hmem⟩ := hp
  by_cases hc : r.deliveredAt = none ∧ r.attempts < MAX_RETRY_ATTEMPTS
  · rw [if_pos hc, List.mem_map] at hmem
    obtain ⟨w, hw, hpw⟩ := hmem
    rw [List.mem_filter] at hw
    have hw2 := hw.2
    simp only [Bool.and_eq_true, beq_iff_eq] at hw2
    subst hpw
    exact ⟨hr, hc.1, hc.2, hw.1, hw2.2, hw2.1⟩
  · rw [if_neg hc] at hmem
    exact absurd hmem (List.not_mem_nil p)

theorem batch_sub_eligible {s : St} {p : DeliveryRecord × Webhook}
    (hp : p ∈ batchW s) : p ∈ eligiblePairs s := by
  unfold batchW at hp
  exact (List.mem_insertionSort _).mp (List.mem_of_mem_take hp)

theorem batch_length_le (s : St) : (batchW s).length ≤ BATCH_SIZE :=
  List.length_take_le _ _

/-- Selected rows come no later than unselected eligible rows (FIFO via
`ORDER BY created_at ASC LIMIT ?`). -/
theorem batch_oldest_first {s : St} {p q : DeliveryRecord × Webhook}
    (hp : p ∈ batchW s) (hq : q ∈ eligiblePairs s) (hqb : q ∉ batchW s) :
    p.1.createdAt ≤ q.1.createdAt := by
  set le : DeliveryRecord × Webhook → DeliveryRecord × Webhook → Prop :=
    fun a b => a.1.createdAt ≤ b.1.createdAt with hle
  haveI : IsTotal (DeliveryRecord × Webhook) le :=
    ⟨fun a b => Nat.le_total a.1.createdAt b.1.createdAt⟩
  haveI : IsTrans (DeliveryRecord × Webhook) le :=
    ⟨fun a b c hab hbc => Nat.le_trans hab hbc⟩
  have hsorted : List.Sorted le (List.insertionSort le (eligiblePairs s)) :=
    List.sorted_insertionSort le (eligiblePairs s)
  have hqL : q ∈ List.insertionSort le (eligiblePairs s) :=
    (List.mem_insertionSort le).mpr hq
  rw [← List.take_append_drop BATCH_SIZE
    (List.insertionSort le (eligiblePairs s))] at hsorted hqL
  have hqdrop : q ∈ (List.insertionSort le (eligiblePairs s)).drop BATCH_SIZE := by
    rcases List.mem_append.mp hqL with h | h
    · exact absurd h hqb
    · exact h
  have := (List.pairwise_append.mp hsorted).2.2
  exact this p hp q hqdrop

/-- Under distinct ledger ids, a batch entry carrying the id of the `i`-th
ledger row is that row. -/
theorem batch_record_eq {s : St} {q : DeliveryRecord × Webhook} {i : Nat}
    (hnd : (s.ledger.map fun r => r.id).Nodup) (hq : q ∈ batchW s)
    (hi : i < s.ledger.length) (hid : q.1.id = s.ledger[i].id) :
    q.1 = s.ledger[i] := by
  have hmem := (mem_eligible (batch_sub_eligible hq)).1
  obtain ⟨j, hj, hget⟩ := List.getElem_of_mem hmem
  have hji : j = i := by
    have hjm : j < (s.ledger.map fun r => r.id).length := by simpa using hj
    have him : i < (s.ledger.map fun r => r.id).length := by simpa using hi
    have hmj : (s.ledger.map fun r => r.id)[j] = s.ledger[j].id :=
      List.getElem_map _
    have hmi : (s.ledger.map fun r => r.id)[i] = s.ledger[i].id :=
      List.getElem_map _
    refine (@List.Nodup.getElem_inj_iff _ _ hnd j hjm i him).mp ?_
    rw [hmj, hmi, hget, hid]
  subst hji
  exact hget.symm

/-! ## Helper lemmas: the dispatcher fold -/

theorem dispatch_fold (u : Nat) (e p : String) (net : String → Bool)
    (now : Nat) (hooks : List Webhook) :
    ∀ (ws : List Webhook) (led : List DeliveryRecord) (n : Nat),
    hooks.foldl
      (fun (st : St) (h : Webhook) =>
        { st with
          ledger := st.ledger ++
            [{ id := st.nextId, userId := u, event := e,
               payload := p, createdAt := now,
               deliveredAt := if net h.url then some now else none,
               attempts := 1 }],
          nextId := st.nextId + 1 })
      ({ webhooks := ws, ledger := led, nextId := n } : St) =
    ({ webhooks := ws, ledger := led ++ recordsFor u e p net now n hooks,
       nextId := n + hooks.length } : St) := by
  induction hooks with
  | nil => intro ws led n; simp [recordsFor]
  | cons h hs ih =>
    intro ws led n
    rw [List.foldl_cons]
    rw [ih ws _ (n + 1)]
    simp only [recordsFor, List.length_cons, St.mk.injEq]
    exact ⟨trivial, by simp [List.append_assoc], by omega⟩

theorem dispatchW_eq (s : St) (u : Nat) (e p : String) (net : String → Bool)
    (now : Nat) :
    dispatchW s u e p net now =
      { webhooks := s.webhooks,
        ledger := s.ledger ++
          recordsFor u e p net now s.nextId (resolveHooks s u),
        nextId := s.nextId + (resolveHooks s u).length } := by
  unfold dispatchW
  have := dispatch_fold u e p net now (resolveHooks s u)
    s.webhooks s.ledger s.nextId
  exact this

theorem recordsFor_length (u : Nat) (e p : String) (net : String → Bool)
    (now : Nat) : ∀ (n : Nat) (hooks : List Webhook),
    (recordsFor u e p net now n hooks).length = hooks.length := by
  intro n hooks
  induction hooks generalizing n with
  | nil => rfl
  | cons h hs ih => simp [recordsFor, ih]

theorem mem_recordsFor {u : Nat} {e p : String} {net : String → Bool}
    {now : Nat} {r : DeliveryRecord} :
    ∀ {n : Nat} {hooks : List Webhook}, r ∈ recordsFor u e p net now n hooks →
    r.attempts = 1 ∧ r.userId = u ∧ r.event = e ∧ r.payload = p ∧
      r.createdAt = now ∧ n ≤ r.id ∧
      ∃ w ∈ hooks, r.deliveredAt = if net w.url then some now else none := by
  intro n hooks
  induction hooks generalizing n with
  | nil => intro h; exact absurd h (List.not_mem_nil r)
  | cons w ws ih =>
    intro h
    rcases List.mem_cons.mp h with h | h
    · subst h
      refine ⟨rfl, rfl, rfl, rfl, rfl, Nat.le_refl n, w, List.mem_cons_self w ws, rfl⟩
    · obtain ⟨h1, h2, h3, h4, h5, h6, w2, hw2, h7⟩ := ih h
      exact ⟨h1, h2, h3, h4, h5, Nat.le_of_succ_le h6, w2,
        List.mem_cons_of_mem w hw2, h7⟩

theorem recordsFor_zip (u : Nat) (e p : String) (net : String → Bool)
    (now : Nat) : ∀ (n : Nat) (hooks : List Webhook),
    ∀ q ∈ (recordsFor u e p net now n hooks).zip hooks,
    q.1.attempts = 1 ∧ q.1.userId = u ∧ q.1.event = e ∧ q.1.payload = p ∧
      (q.1.deliveredAt = some now ↔ net q.2.url = true) ∧
      (q.1.deliveredAt = none ↔ net q.2.url = false) := by
  intro n hooks
  induction hooks generalizing n with
  | nil => intro q hq; exact absurd hq (List.not_mem_nil q)
  | cons w ws ih =>
    intro q hq
    simp only [recordsFor, List.zip_cons_cons] at hq
    rcases List.mem_cons.mp hq with h | h
    · subst h
      refine ⟨rfl, rfl, rfl, rfl, ?_, ?_⟩ <;>
        cases hb : net w.url <;> simp [hb]
    · exact ih (n + 1) q h

/-! ## Helper lemmas: the per-tick ledger update fold -/

theorem tickW_ledger (s : St) (net : String → Bool) (now : Nat) :
    (tickW s net now).ledger = ledFold (batchW s) net now s.ledger := rfl

theorem tickW_webhooks (s : St) (net : String → Bool) (now : Nat) :
    (tickW s net now).webhooks = s.webhooks := rfl

theorem tickW_nextId (s : St) (net : String → Bool) (now : Nat) :
    (tickW s net now).nextId = s.nextId := rfl

theorem applyOutcome_length (led : List DeliveryRecord) (rid : Nat)
    (ok : Bool) (now : Nat) :
    (applyOutcome led rid ok now).length = led.length :=
  List.length_map led _

theorem ledFold_length (net : String → Bool) (now : Nat) :
    ∀ (batch : List (DeliveryRecord × Webhook)) (led : List DeliveryRecord),
    (ledFold batch net now led).length = led.length := by
  intro batch
  induction batch with
  | nil => intro led; rfl
  | cons q qs ih =>
    intro led
    show (ledFold qs net now (applyOutcome led q.1.id (net q.2.url) now)).length = _
    rw [ih, applyOutcome_length]

theorem applyOutcome_mem {led : List DeliveryRecord} {rid : Nat} {ok : Bool}
    {now : Nat} {r2 : DeliveryRecord}
    (h : r2 ∈ applyOutcome led rid ok now) :
    ∃ r ∈ led, r2.id = r.id ∧ r2.userId = r.userId ∧ r2.event = r.event ∧
      r2.payload = r.payload ∧ r2.createdAt = r.createdAt ∧
      r.attempts ≤ r2.attempts ∧
      (r2.deliveredAt = r.deliveredAt ∨ r2.deliveredAt = some now) := by
  obtain ⟨r, hr, hfr⟩ := List.mem_map.mp h
  refine ⟨r, hr, ?_⟩
  subst hfr
  by_cases h1 : r.id = rid <;> by_cases h2 : ok = true <;>
    simp [h1, h2, Nat.le_succ]

theorem ledFold_mem {net : String → Bool} {now : Nat} :
    ∀ {batch : List (DeliveryRecord × Webhook)} {led : List DeliveryRecord}
    {r2 : DeliveryRecord}, r2 ∈ ledFold batch net now led →
    ∃ r ∈ led, r2.id = r.id ∧ r2.userId = r.userId ∧ r2.event = r.event ∧
      r2.payload = r.payload ∧ r2.createdAt = r.createdAt ∧
      r.attempts ≤ r2.attempts := by
  intro batch
  induction batch with
  | nil => intro led r2 h; exact ⟨r2, h, rfl, rfl, rfl, rfl, rfl, Nat.le_refl _⟩
  | cons q qs ih =>
    intro led r2 h
    have h2 : r2 ∈ ledFold qs net now (applyOutcome led q.1.id (net q.2.url) now) := h
    obtain ⟨r1, hr1, e1, e2, e3, e4, e5, hle⟩ := ih h2
    obtain ⟨r, hr, f1, f2, f3, f4, f5, hle2, _⟩ := applyOutcome_mem hr1
    exact ⟨r, hr, e1.trans f1, e2.trans f2, e3.trans f3, e4.trans f4,
      e5.trans f5, Nat.le_trans hle2 hle⟩

theorem relLed_refl (now : Nat) (P : Nat → Prop)
    (led0 : List DeliveryRecord) : RelLed now P led0 led0 := by
  refine ⟨rfl, fun i h0 h1 => ?_⟩
  exact ⟨rfl, rfl, rfl, rfl, rfl, Nat.le_refl _, fun v hv => hv,
    fun h => absurd rfl h⟩

theorem relLed_applyOutcome {now : Nat} {P : Nat → Prop}
    {led0 led : List DeliveryRecord} {rid : Nat} {ok : Bool}
    (hnd : (led0.map fun r => r.id).Nodup)
    (hrid : ∃ j, ∃ hj : j < led0.length,
      led0[j].id = rid ∧ led0[j].deliveredAt = none)
    (hP : ok = true → P rid)
    (h : RelLed now P led0 led) :
    RelLed now P led0 (applyOutcome led rid ok now) := by
  obtain ⟨hlen, hpt⟩ := h
  refine ⟨by rw [applyOutcome_length, hlen], fun i h0 h1 => ?_⟩
  have h1b : i < led.length := by rwa [applyOutcome_length] at h1
  have hget : (applyOutcome led rid ok now)[i] =
      (fun r => if r.id = rid then
        (if ok then { r with deliveredAt := some now, attempts := r.attempts + 1 }
         else { r with attempts := r.attempts + 1 })
        else r) led[i] := by
    unfold applyOutcome
    exact List.getElem_map _
  obtain ⟨e1, e2, e3, e4, e5, hle, hsome, hchg⟩ := hpt i h0 h1b
  simp only [hget]
  by_cases hc : led[i].id = rid
  · -- the updated position: its pre-tick row was not yet delivered
    obtain ⟨j, hj, hjid, hjnone⟩ := hrid
    have hij : i = j := by
      have h0m : i < (led0.map fun r => r.id).length := by simpa using h0
      have hjm : j < (led0.map fun r => r.id).length := by simpa using hj
      have hmi : (led0.map fun r => r.id)[i] = led0[i].id := List.getElem_map _
      have hmj : (led0.map fun r => r.id)[j] = led0[j].id := List.getElem_map _
      refine (@List.Nodup.getElem_inj_iff _ _ hnd i h0m j hjm).mp ?_
      rw [hmi, hmj, ← e1, hc, hjid]
    subst hij
    have hnone0 : led0[i].deliveredAt = none := hjnone
    rw [if_pos hc]
    cases ok
    · exact ⟨e1, e2, e3, e4, e5, Nat.le_trans hle (Nat.le_succ _),
        fun v hv => absurd (hnone0.symm.trans hv) (by simp),
        fun hne => hchg hne⟩
    · refine ⟨e1, e2, e3, e4, e5, Nat.le_trans hle (Nat.le_succ _),
        fun v hv => absurd (hnone0.symm.trans hv) (by simp),
        fun _ => ⟨rfl, ?_⟩⟩
      rw [hjid]
      exact hP rfl
  · rw [if_neg hc]
    exact ⟨e1, e2, e3, e4, e5, hle, hsome, hchg⟩

theorem relLed_ledFold {net : String → Bool} {now : Nat} {P : Nat → Prop}
    {led0 : List DeliveryRecord}
    (hnd : (led0.map fun r => r.id).Nodup) :
    ∀ {batch : List (DeliveryRecord × Webhook)} {led : List DeliveryRecord},
    (∀ p ∈ batch, ∃ j, ∃ hj : j < led0.length,
      led0[j].id = p.1.id ∧ led0[j].deliveredAt = none) →
    (∀ p ∈ batch, net p.2.url = true → P p.1.id) →
    RelLed now P led0 led → RelLed now P led0 (ledFold batch net now led) := by
  intro batch
  induction batch with
  | nil => intro led _ _ h; exact h
  | cons q qs ih =>
    intro led hb hs h
    have hq := hb q (List.mem_cons_self q qs)
    have hPq : net q.2.url = true → P q.1.id :=
      hs q (List.mem_cons_self q qs)
    have step := @relLed_applyOutcome now P led0 led q.1.id (net q.2.url)
      hnd hq hPq h
    exact ih (fun p hp => hb p (List.mem_cons_of_mem q hp))
      (fun p hp => hs p (List.mem_cons_of_mem q hp)) step

/-- When every transport attempt fails, a tick's fold never touches
`delivered_at`. -/
theorem ledFold_allFail_deliveredAt {net : String → Bool} {now : Nat}
    (hnet : ∀ x, net x = false) :
    ∀ (batch : List (DeliveryRecord × Webhook)) (led : List DeliveryRecord)
    (i : Nat) (h1 : i < led.length)
    (h2 : i < (ledFold batch net now led).length),
    (ledFold batch net now led)[i].deliveredAt = led[i].deliveredAt := by
  intro batch
  induction batch with
  | nil => intro led i h1 h2; rfl
  | cons q qs ih =>
    intro led i h1 h2
    have hlen : i < (applyOutcome led q.1.id (net q.2.url) now).length := by
      rwa [applyOutcome_length]
    have h2b : i < (ledFold qs net now
        (applyOutcome led q.1.id (net q.2.url) now)).length := h2
    have hstep := ih (applyOutcome led q.1.id (net q.2.url) now) i hlen h2b
    have hgoal : (ledFold (q :: qs) net now led)[i] =
        (ledFold qs net now (applyOutcome led q.1.id (net q.2.url) now))[i] :=
      rfl
    rw [hgoal, hstep]
    have hget : (applyOutcome led q.1.id (net q.2.url) now)[i] =
        (fun r => if r.id = q.1.id then
          (if net q.2.url then
            { r with deliveredAt := some now, attempts := r.attempts + 1 }
           else { r with attempts := r.attempts + 1 })
          else r) led[i] := by
      unfold applyOutcome
      exact List.getElem_map _
    rw [hget]
    by_cases hc : led[i].id = q.1.id <;> simp [hc, hnet q.2.url]

/-! ## Helper lemmas: single-subscription scenarios -/

theorem resolveHooks_single (w : Webhook) (led : List DeliveryRecord) (n : Nat)
    (hact : w.active = true) :
    resolveHooks { webhooks := [w], ledger := led, nextId := n } w.userId =
      [w] := by
  unfold resolveHooks
  simp [List.filter, hact]

theorem dispatch_single (w : Webhook) (e p : String) (net : String → Bool)
    (t n : Nat) (hact : w.active = true) :
    dispatchW (singleHookSt w n) w.userId e p net t =
      { webhooks := [w],
        ledger := [{ id := n, userId := w.userId, event := e, payload := p,
                     createdAt := t,
                     deliveredAt := if net w.url then some t else none,
                     attempts := 1 }],
        nextId := n + 1 } := by
  rw [dispatchW_eq]
  unfold singleHookSt
  rw [resolveHooks_single w [] n hact]
  simp [recordsFor]

theorem batch_single (w : Webhook) (r : DeliveryRecord) (n : Nat)
    (hact : w.active = true) (huid : w.userId = r.userId)
    (hdel : r.deliveredAt = none) (hatt : r.attempts < MAX_RETRY_ATTEMPTS) :
    batchW { webhooks := [w], ledger := [r], nextId := n } = [(r, w)] := by
  have he : eligiblePairs { webhooks := [w], ledger := [r], nextId := n } =
      [(r, w)] := by
    unfold eligiblePairs
    simp [hdel, hatt, List.filter, huid, hact]
  unfold batchW
  rw [he]
  rfl

theorem tick_single (w : Webhook) (r : DeliveryRecord) (n : Nat)
    (net : String → Bool) (now : Nat)
    (hact : w.active = true) (huid : w.userId = r.userId)
    (hdel : r.deliveredAt = none) (hatt : r.attempts < MAX_RETRY_ATTEMPTS) :
    tickW { webhooks := [w], ledger := [r], nextId := n } net now =
      { webhooks := [w],
        ledger := [if net w.url then
            { r with deliveredAt := some now, attempts := r.attempts + 1 }
          else { r with attempts := r.attempts + 1 }],
        nextId := n } := by
  unfold tickW
  rw [batch_single w r n hact huid hdel hatt]
  simp only [List.foldl_cons, List.foldl_nil, St.mk.injEq]
  refine ⟨trivial, ?_, trivial⟩
  unfold applyOutcome
  rw [List.map_cons, List.map_nil, if_pos rfl]

theorem failTicks_single (w : Webhook) (r : DeliveryRecord) (n : Nat)
    (tm : Nat → Nat) (hact : w.active = true) (huid : w.userId = r.userId)
    (hdel : r.deliveredAt = none) :
    ∀ k, r.attempts + k ≤ MAX_RETRY_ATTEMPTS →
    failTicks k tm { webhooks := [w], ledger := [r], nextId := n } =
      { webhooks := [w],
        ledger := [{ r with attempts := r.attempts + k }],
        nextId := n } := by
  intro k
  induction k with
  | zero => intro _; rfl
  | succ k ih =>
    intro hk
    have hk5 : r.attempts + (k + 1) ≤ 5 := hk
    have hle : r.attempts + k ≤ MAX_RETRY_ATTEMPTS := by
      show r.attempts + k ≤ 5
      omega
    have hlt : ({ r with attempts := r.attempts + k } :
        DeliveryRecord).attempts < MAX_RETRY_ATTEMPTS := by
      show r.attempts + k < 5
      omega
    show tickW (failTicks k tm _) (fun _ => false) (tm k) = _
    rw [ih hle]
    rw [tick_single w { r with attempts := r.attempts + k } n
      (fun _ => false) (tm k) hact huid hdel hlt]
    rfl

/-! ## Helper lemmas: exhaustion is absorbing -/

theorem exhausted_step {rid : Nat} {s t : St} (hst : Step s t)
    (h : Exhausted rid s) : Exhausted rid t := by
  obtain ⟨hatt, hid⟩ := h
  cases hst with
  | dispatch u e p net now =>
    rw [dispatchW_eq]
    refine ⟨fun r hr hrid => ?_, by simp; omega⟩
    rcases List.mem_append.mp hr with hr | hr
    · exact hatt r hr hrid
    · obtain ⟨_, _, _, _, _, hle, _⟩ := mem_recordsFor hr
      omega
  | tick net now =>
    refine ⟨fun r hr hrid => ?_, hid⟩
    obtain ⟨r0, hr0, e1, _, _, _, _, hle⟩ := ledFold_mem hr
    exact Nat.le_trans (hatt r0 hr0 (e1.symm.trans hrid)) hle
  | registry ws =>
    exact ⟨hatt, hid⟩

theorem exhausted_steps {rid : Nat} {s t : St} (hst : Steps s t)
    (h : Exhausted rid s) : Exhausted rid t := by
  induction hst with
  | refl => exact h
  | tail hs hstep ih => exact exhausted_step hstep ih

theorem exhausted_not_selected {rid : Nat} {s : St} (h : Exhausted rid s) :
    ∀ p ∈ batchW s, p.1.id ≠ rid := by
  intro p hp hrid
  obtain ⟨hmem, _, hlt, _⟩ := mem_eligible (batch_sub_eligible hp)
  exact absurd (h.1 p.1 hmem hrid) (by omega)

/-! ## Helper lemmas: registration -/

theorem validEventsOf_subset (evs : Option EventsInput) :
    ∀ ev ∈ validEventsOf evs, ev ∈ ALLOWED_WEBHOOK_EVENTS := by
  intro ev hev
  exact of_decide_eq_true (List.mem_filter.mp hev).2

theorem adminValidEventsOf_subset (evs : Option EventsInput) :
    ∀ ev ∈ adminValidEventsOf evs, ev ∈ ALLOWED_WEBHOOK_EVENTS := by
  intro ev hev
  exact of_decide_eq_true (List.mem_filter.mp hev).2

theorem createWebhook_cases (pp : String → Option String) (prod br : Bool)
    (uid : Nat) (url sec : String) (evs : Option EventsInput) :
    createWebhook pp prod br uid url sec evs = none ∨
    ∃ proto, pp url = some proto ∧ (proto = "http:" ∨ proto = "https:") ∧
      (prod = true → proto = "https:") ∧
      (br = false →
        ∀ ev ∈ normalizedEventsOf evs, ev ∈ ALLOWED_WEBHOOK_EVENTS) ∧
      (br = true → validEventsOf evs ≠ []) ∧
      createWebhook pp prod br uid url sec evs =
        some { userId := uid, url := url, secret := sec,
               eventsCsv := String.intercalate "," (validEventsOf evs),
               active := true } := by
  unfold createWebhook
  cases hpp : pp url with
  | none =>
    dsimp only
    split_ifs <;> exact Or.inl rfl
  | some proto =>
    dsimp only
    split_ifs with hA h2 h3 h4 h5 <;> try exact Or.inl rfl
    refine Or.inr ⟨proto, rfl, h3, ?_, ?_, ?_, rfl⟩
    · intro hp
      by_contra hne
      exact h2 ⟨hne, hp⟩
    · intro hbf
      by_contra hno
      exact h4 ⟨hbf, hno⟩
    · intro hbt hv
      exact h5 ⟨hbt, hv⟩

theorem createUserWebhook_cases (pp : String → Option String) (prod : Bool)
    (uid : Nat) (url sec : String) (evs : Option EventsInput) :
    createUserWebhook pp prod uid url sec evs = none ∨
    ∃ proto, pp url = some proto ∧ (proto = "http:" ∨ proto = "https:") ∧
      (prod = true → proto = "https:") ∧ adminValidEventsOf evs ≠ [] ∧
      createUserWebhook pp prod uid url sec evs =
        some { userId := uid, url := url, secret := sec,
               eventsCsv := String.intercalate "," (adminValidEventsOf evs),
               active := true } := by
  unfold createUserWebhook
  cases hpp : pp url with
  | none => exact Or.inl rfl
  | some proto =>
    dsimp only
    split_ifs with h2 h3 h4 <;> try exact Or.inl rfl
    refine Or.inr ⟨proto, rfl, h3, ?_, h4, rfl⟩
    intro hp
    by_contra hne
    exact h2 ⟨hne, hp⟩

/-! ## Helper lemmas: the signer -/

theorem wordBytes_mem_lt {w x : Nat} (hx : x ∈ wordBytes w) : x < 256 := by
  have hb : ∀ a : Nat, a &&& 255 < 256 :=
    fun a => Nat.lt_succ_of_le Nat.and_le_right
  simp only [wordBytes, List.mem_cons, List.not_mem_nil, or_false] at hx
  rcases hx with rfl | rfl | rfl | rfl <;> exact hb _

theorem digestBytes_length (st : Hash8) : (digestBytes st).length = 32 := rfl

theorem digestBytes_mem_lt {st : Hash8} {x : Nat} (hx : x ∈ digestBytes st) :
    x < 256 := by
  unfold digestBytes at hx
  obtain ⟨w, _, hxw⟩ := List.mem_flatMap.mp hx
  exact wordBytes_mem_lt hxw

theorem sha256_length (msg : List Nat) : (sha256 msg).length = 32 :=
  digestBytes_length _

theorem sha256_mem_lt {msg : List Nat} {x : Nat} (hx : x ∈ sha256 msg) :
    x < 256 :=
  digestBytes_mem_lt hx

theorem hmacSha256_length (key msg : List Nat) :
    (hmacSha256 key msg).length = 32 :=
  sha256_length _

theorem hmacSha256_mem_lt {key msg : List Nat} {x : Nat}
    (hx : x ∈ hmacSha256 key msg) : x < 256 :=
  sha256_mem_lt hx

theorem encBytes_lt : ∀ l : List Nat, (∀ b ∈ l, b < 256) →
    encBytes l < 256 ^ l.length := by
  intro l
  induction l with
  | nil => intro _; simp [encBytes]
  | cons x xs ih =>
    intro hb
    have hx : x < 256 := hb x (List.mem_cons_self x xs)
    have hxs : encBytes xs < 256 ^ xs.length :=
      ih fun b hbm => hb b (List.mem_cons_of_mem x hbm)
    show x + 256 * encBytes xs < 256 ^ (xs.length + 1)
    have h1 : x + 256 * encBytes xs < 256 * (encBytes xs + 1) := by omega
    have h2 : 256 * (encBytes xs + 1) ≤ 256 * 256 ^ xs.length :=
      Nat.mul_le_mul_left 256 hxs
    calc x + 256 * encBytes xs < 256 * (encBytes xs + 1) := h1
      _ ≤ 256 * 256 ^ xs.length := h2
      _ = 256 ^ (xs.length + 1) := by rw [pow_succ, Nat.mul_comm]

theorem encBytes_inj : ∀ l1 l2 : List Nat, l1.length = l2.length →
    (∀ b ∈ l1, b < 256) → (∀ b ∈ l2, b < 256) →
    encBytes l1 = encBytes l2 → l1 = l2 := by
  intro l1
  induction l1 with
  | nil =>
    intro l2 hlen _ _ _
    exact (List.length_eq_zero.mp hlen.symm).symm
  | cons x xs ih =>
    intro l2 hlen hb1 hb2 henc
    cases l2 with
    | nil => exact absurd hlen (by simp)
    | cons y ys =>
      have hx : x < 256 := hb1 x (List.mem_cons_self x xs)
      have hy : y < 256 := hb2 y (List.mem_cons_self y ys)
      have he : x + 256 * encBytes xs = y + 256 * encBytes ys := henc
      have hxy : x = y := by omega
      have htail : encBytes xs = encBytes ys := by omega
      rw [hxy, ih ys (by simpa using hlen)
        (fun b hbm => hb1 b (List.mem_cons_of_mem x hbm))
        (fun b hbm => hb2 b (List.mem_cons_of_mem y hbm)) htail]

theorem encBytes_hmac_lt (key msg : List Nat) :
    encBytes (hmacSha256 key msg) < 256 ^ 32 := by
  have h := encBytes_lt (hmacSha256 key msg) fun b hb => hmacSha256_mem_lt hb
  rwa [hmacSha256_length] at h

theorem decBytes_mem {n : Nat} : ∀ d ∈ decBytes n, 48 ≤ d ∧ d ≤ 57 := by
  intro d hd
  unfold decBytes at hd
  by_cases h : n = 0
  · rw [if_pos h] at hd
    rcases List.mem_singleton.mp hd with rfl
    omega
  · rw [if_neg h] at hd
    obtain ⟨d0, hd0, rfl⟩ := List.mem_map.mp hd
    have hd10 : d0 < 10 :=
      Nat.digits_lt_base (by omega) (List.mem_reverse.mp hd0)
    omega

theorem decBytes_ne_sep {n : Nat} : ∀ d ∈ decBytes n, d ≠ 46 := by
  intro d hd
  have := decBytes_mem d hd
  omega

theorem decBytes_injective : Function.Injective decBytes := by
  intro a b hab
  unfold decBytes at hab
  by_cases ha : a = 0 <;> by_cases hb : b = 0
  · exact ha.trans hb.symm
  · exfalso
    rw [if_pos ha, if_neg hb] at hab
    cases hrev : (Nat.digits 10 b).reverse with
    | nil =>
      rw [hrev] at hab
      exact absurd hab (by simp)
    | cons d ds =>
      rw [hrev] at hab
      cases ds with
      | cons d2 ds2 => exact absurd hab (by simp)
      | nil =>
        have hd0 : d = 0 := by
          have := List.cons.injEq 48 [] (d + 48) [] ▸ hab
          simp at hab
          omega
        have hdig : Nat.digits 10 b = [0] := by
          have := congrArg List.reverse hrev
          rwa [List.reverse_reverse, hd0] at this
        have hb0 : b = 0 := by
          have h0 := Nat.ofDigits_digits 10 b
          rw [hdig] at h0
          simpa [Nat.ofDigits] using h0.symm
        exact hb hb0
  · exfalso
    rw [if_neg ha, if_pos hb] at hab
    cases hrev : (Nat.digits 10 a).reverse with
    | nil =>
      rw [hrev] at hab
      exact absurd hab (by simp)
    | cons d ds =>
      rw [hrev] at hab
      cases ds with
      | cons d2 ds2 => exact absurd hab (by simp)
      | nil =>
        have hd0 : d = 0 := by
          simp at hab
          omega
        have hdig : Nat.digits 10 a = [0] := by
          have := congrArg List.reverse hrev
          rwa [List.reverse_reverse, hd0] at this
        have ha0 : a = 0 := by
          have h0 := Nat.ofDigits_digits 10 a
          rw [hdig] at h0
          simpa [Nat.ofDigits] using h0.symm
        exact ha ha0
  · rw [if_neg ha, if_neg hb] at hab
    have hinj : Function.Injective fun d : Nat => d + 48 := by
      intro u v huv
      simpa using huv
    have h1 := List.map_injective_iff.mpr hinj hab
    have h2 := List.reverse_injective h1
    exact Nat.digits_inj_iff.mp h2

theorem append_sep_inj : ∀ xs ys b b2 : List Nat,
    (∀ d ∈ xs, d ≠ 46) → (∀ d ∈ ys, d ≠ 46) →
    xs ++ 46 :: b = ys ++ 46 :: b2 → xs = ys ∧ b = b2 := by
  intro xs
  induction xs with
  | nil =>
    intro ys b b2 _ hys h
    cases ys with
    | nil =>
      refine ⟨rfl, ?_⟩
      simpa using h
    | cons y ys2 =>
      exfalso
      have hy : 46 = y := by simpa using congrArg (fun l => l.headD 0) h
      exact hys y (List.mem_cons_self y ys2) hy.symm
  | cons x xs2 ih =>
    intro ys b b2 hxs hys h
    cases ys with
    | nil =>
      exfalso
      have hx : x = 46 := by simpa using congrArg (fun l => l.headD 0) h
      exact hxs x (List.mem_cons_self x xs2) hx
    | cons y ys2 =>
      rw [List.cons_append, List.cons_append] at h
      have hxy : x = y := by simpa using congrArg (fun l => l.headD 0) h
      have htl : xs2 ++ 46 :: b = ys2 ++ 46 :: b2 := by
        simpa using congrArg List.tail h
      obtain ⟨h1, h2⟩ := ih ys2 b b2
        (fun d hd => hxs d (List.mem_cons_of_mem x hd))
        (fun d hd => hys d (List.mem_cons_of_mem y hd)) htl
      exact ⟨by rw [hxy, h1], h2⟩

theorem signMessage_inj (t b t2 b2) :
    signMessage t b = signMessage t2 b2 ↔ t = t2 ∧ b = b2 := by
  constructor
  · intro h
    obtain ⟨h1, h2⟩ := append_sep_inj (decBytes t) (decBytes t2) b b2
      decBytes_ne_sep decBytes_ne_sep h
    exact ⟨decBytes_injective h1, h2⟩
  · rintro ⟨rfl, rfl⟩
    rfl

theorem hexEncode_length (bs : List Nat) :
    (hexEncode bs).length = 2 * bs.length := by
  show (bs.flatMap fun b => [hexChar (b / 16), hexChar (b % 16)]).length = _
  induction bs with
  | nil => rfl
  | cons x xs ih =>
    simp only [List.flatMap_cons, List.length_append, List.length_cons,
      List.length_nil, List.length_cons, ih]
    omega

/-! ## Claim theorems -/

/-- C1 (code bug evidence): `hookA` is subscribed only to `note.updated`,
yet dispatching `favorite.added` for its user POSTs to its URL (the
dispatcher's query filters only on `user_id` and `active`), writes a ledger
row for the event, and the retry worker then joins that row back to the
same non-subscribed webhook and POSTs to it again. -/
theorem c1_dispatch_ignores_event_filter :
    "favorite.added" ∉ hookA.events ∧
    dispatchAttempts (singleHookSt hookA 100) 7 = ["https://a.example/cb"] ∧
    (c1State.ledger.map fun r => (r.event, r.deliveredAt, r.attempts)) =
      [("favorite.added", none, 1)] ∧
    tickAttempts c1State = ["https://a.example/cb"] := by
  refine ⟨by decide, by decide, by decide, by decide⟩

/-- C2: at-least-once under transient failure.  For any single active
subscription and any `1 ≤ N ≤ MAX_RETRY_ATTEMPTS`, if the endpoint fails
transport on the first `N - 1` attempts and succeeds on attempt `N`, the
dispatch followed by successive worker ticks leaves exactly one Delivery
Record, with `delivered_at` non-null and `attempts = N`. -/
theorem c2_at_least_once (w : Webhook) (e p : String) (n0 : Nat)
    (tm : Nat → Nat) (N : Nat) (hact : w.active = true)
    (h1 : 1 ≤ N) (h5 : N ≤ MAX_RETRY_ATTEMPTS) :
    ((c2Final w e p n0 tm N).ledger.map fun r =>
      (r.deliveredAt.isSome, r.attempts)) = [(true, N)] := by
  have h5b : N ≤ 5 := h5
  by_cases hN : N = 1
  · subst hN
    unfold c2Final
    rw [if_pos rfl, dispatch_single w e p (fun _ => true) (tm 0) n0 hact]
    rfl
  · have h2 : 2 ≤ N := by omega
    unfold c2Final
    rw [if_neg hN, dispatch_single w e p (fun _ => false) (tm 0) n0 hact]
    rw [failTicks_single w _ (n0 + 1) tm hact rfl rfl (N - 2)
      (by show 1 + (N - 2) ≤ 5; omega)]
    rw [tick_single w _ (n0 + 1) (fun _ => true) (tm 99) hact rfl rfl
      (by show 1 + (N - 2) < 5; omega)]
    have hNval : 1 + (N - 2) + 1 = N := by omega
    simp [hNval]

/-- C2 witness at `N = 3`. -/
theorem c2_at_least_once_witness :
    hookA.active = true ∧ 1 ≤ 3 ∧ 3 ≤ MAX_RETRY_ATTEMPTS ∧
    ((c2Final hookA "note.updated" "p" 100 id 3).ledger.map fun r =>
      (r.deliveredAt.isSome, r.attempts)) = [(true, 3)] :=
  ⟨rfl, by decide, by decide,
    c2_at_least_once hookA "note.updated" "p" 100 id 3 rfl (by decide)
      (by decide)⟩

/-- C3: each tick selects at most `BATCH_SIZE` join rows; every selected
row is a pending record (`delivered_at` null, `attempts` below the cap)
joined to an active webhook of the same user; selected rows are no younger
than unselected eligible rows; and on the concrete 12-pending-record state
the batch is exactly the 10 oldest records, in creation order. -/
theorem c3_batch_selection :
    (∀ s : St, (batchW s).length ≤ BATCH_SIZE ∧
      (∀ p ∈ batchW s, p.1 ∈ s.ledger ∧ p.1.deliveredAt = none ∧
        p.1.attempts < MAX_RETRY_ATTEMPTS ∧ p.2 ∈ s.webhooks ∧
        p.2.active = true ∧ p.2.userId = p.1.userId) ∧
      (∀ p ∈ batchW s, ∀ q ∈ eligiblePairs s, q ∉ batchW s →
        p.1.createdAt ≤ q.1.createdAt)) ∧
    (batchW c3State).map (fun p => p.1.id) =
      [4, 6, 10, 2, 8, 0, 11, 9, 3, 5] ∧
    (batchW c3State).map (fun p => p.1.createdAt) =
      [0, 1, 2, 3, 4, 5, 6, 7, 8, 9] := by
  refine ⟨fun s => ⟨batch_length_le s,
    fun p hp => mem_eligible (batch_sub_eligible hp),
    fun p hp q hq hqb => batch_oldest_first hp hq hqb⟩, by decide, by decide⟩

/-- C3 witness. -/
theorem c3_batch_selection_witness :
    (batchW c3State).length ≤ BATCH_SIZE ∧
    (batchW c3State).map (fun p => p.1.id) =
      [4, 6, 10, 2, 8, 0, 11, 9, 3, 5] :=
  ⟨(c3_batch_selection.1 c3State).1, c3_batch_selection.2.1⟩

/-- C4: the dispatch ledger postcondition.  The post-dispatch ledger is the
old ledger plus exactly one new row per resolved subscription (so an empty
resolution writes nothing), and each new row carries `attempts = 1` with
`delivered_at` set iff the transport attempt for its subscription
succeeded. -/
theorem c4_dispatch_ledger_postcondition (s : St) (u : Nat) (e p : String)
    (net : String → Bool) (now : Nat) :
    (dispatchW s u e p net now).ledger =
      s.ledger ++ recordsFor u e p net now s.nextId (resolveHooks s u) ∧
    (resolveHooks s u = [] → (dispatchW s u e p net now).ledger = s.ledger) ∧
    (recordsFor u e p net now s.nextId (resolveHooks s u)).length =
      (resolveHooks s u).length ∧
    ∀ q ∈ (recordsFor u e p net now s.nextId (resolveHooks s u)).zip
        (resolveHooks s u),
      q.1.attempts = 1 ∧ q.1.userId = u ∧ q.1.event = e ∧ q.1.payload = p ∧
      (q.1.deliveredAt = some now ↔ net q.2.url = true) ∧
      (q.1.deliveredAt = none ↔ net q.2.url = false) := by
  refine ⟨?_, ?_, recordsFor_length u e p net now s.nextId (resolveHooks s u),
    recordsFor_zip u e p net now s.nextId (resolveHooks s u)⟩
  · rw [dispatchW_eq]
  · intro h
    rw [dispatchW_eq, h]
    simp [recordsFor]

/-- C4 witness at a concrete dispatch. -/
theorem c4_dispatch_ledger_postcondition_witness :
    (dispatchW (singleHookSt hookA 100) 7 "note.updated" "p"
      (fun _ => true) 3).ledger =
      (singleHookSt hookA 100).ledger ++
        recordsFor 7 "note.updated" "p" (fun _ => true) 3 100
          (resolveHooks (singleHookSt hookA 100) 7) :=
  (c4_dispatch_ledger_postcondition (singleHookSt hookA 100) 7 "note.updated"
    "p" (fun _ => true) 3).1

/-- C6: exhaustion.  Against an endpoint that always fails at transport,
one dispatch and four failing ticks leave the single record with
`attempts = MAX_RETRY_ATTEMPTS` and `delivered_at` null, and after any
further sequence of dispatches, ticks and registry changes no tick ever
selects that record again. -/
theorem c6_exhaustion (w : Webhook) (e p : String) (n0 : Nat)
    (tm : Nat → Nat) (hact : w.active = true) :
    ((c6Final w e p n0 tm).ledger.map fun r => (r.deliveredAt, r.attempts)) =
      [(none, MAX_RETRY_ATTEMPTS)] ∧
    ∀ s2, Steps (c6Final w e p n0 tm) s2 → ∀ q ∈ batchW s2, q.1.id ≠ n0 := by
  have hfin : c6Final w e p n0 tm =
      { webhooks := [w],
        ledger := [{ id := n0, userId := w.userId, event := e, payload := p,
                     createdAt := tm 0, deliveredAt := none, attempts := 5 }],
        nextId := n0 + 1 } := by
    unfold c6Final
    rw [dispatch_single w e p (fun _ => false) (tm 0) n0 hact]
    rw [failTicks_single w _ (n0 + 1) tm hact rfl rfl 4
      (by show 1 + 4 ≤ 5; omega)]
    rfl
  constructor
  · rw [hfin]; rfl
  · have hex : Exhausted n0 (c6Final w e p n0 tm) := by
      rw [hfin]
      refine ⟨fun r hr hrid => ?_, Nat.lt_succ_self n0⟩
      rcases List.mem_singleton.mp hr with rfl
      exact Nat.le_refl _
    exact fun s2 hsteps q hq =>
      exhausted_not_selected (exhausted_steps hsteps hex) q hq

/-- C6 witness. -/
theorem c6_exhaustion_witness :
    hookA.active = true ∧
    ((c6Final hookA "note.updated" "p" 100 id).ledger.map fun r =>
      (r.deliveredAt, r.attempts)) = [(none, MAX_RETRY_ATTEMPTS)] :=
  ⟨rfl, (c6_exhaustion hookA "note.updated" "p" 100 id rfl).1⟩

/-- C7: ledger invariants under both mutating operations, for any mix of
per-attempt transport outcomes.  A dispatch never touches existing rows and
appends only rows with `attempts = 1` whose `delivered_at` is null unless
set to the dispatch time by a successful attempt; a tick preserves row ids,
never decreases `attempts`, never changes a non-null `delivered_at`, and
flips a row's `delivered_at` from null only to the tick time and only when
this tick made a successful transport attempt for that very row. -/
theorem c7_ledger_invariants (s : St) (u : Nat) (e p : String)
    (net : String → Bool) (now : Nat)
    (hnd : (s.ledger.map fun r => r.id).Nodup) :
    ((dispatchW s u e p net now).ledger.take s.ledger.length = s.ledger ∧
     ∀ r ∈ (dispatchW s u e p net now).ledger.drop s.ledger.length,
       r.attempts = 1 ∧
       (r.deliveredAt = none ∨
         (r.deliveredAt = some now ∧
           ∃ w ∈ resolveHooks s u, net w.url = true))) ∧
    ((tickW s net now).ledger.length = s.ledger.length ∧
     ∀ i (h0 : i < s.ledger.length)
       (h1 : i < (tickW s net now).ledger.length),
       (tickW s net now).ledger[i].id = s.ledger[i].id ∧
       s.ledger[i].attempts ≤ (tickW s net now).ledger[i].attempts ∧
       (∀ v, s.ledger[i].deliveredAt = some v →
         (tickW s net now).ledger[i].deliveredAt = some v) ∧
       ((tickW s net now).ledger[i].deliveredAt ≠ s.ledger[i].deliveredAt →
         (tickW s net now).ledger[i].deliveredAt = some now ∧
         ∃ q ∈ batchW s, q.1 = s.ledger[i] ∧ net q.2.url = true)) := by
  have hbatch : ∀ q ∈ batchW s, ∃ j, ∃ hj : j < s.ledger.length,
      s.ledger[j].id = q.1.id ∧ s.ledger[j].deliveredAt = none := by
    intro q hq
    obtain ⟨hmem, hdel, _⟩ := mem_eligible (batch_sub_eligible hq)
    obtain ⟨j, hj, hget⟩ := List.getElem_of_mem hmem
    exact ⟨j, hj, by rw [hget], by rw [hget]; exact hdel⟩
  have hsucc : ∀ q ∈ batchW s, net q.2.url = true →
      ∃ q2 ∈ batchW s, q2.1.id = q.1.id ∧ net q2.2.url = true :=
    fun q hq hn => ⟨q, hq, rfl, hn⟩
  have hrel : RelLed now
      (fun rid => ∃ q ∈ batchW s, q.1.id = rid ∧ net q.2.url = true)
      s.ledger (tickW s net now).ledger := by
    rw [tickW_ledger]
    exact relLed_ledFold hnd hbatch hsucc (relLed_refl now _ s.ledger)
  constructor
  · constructor
    · rw [dispatchW_eq]
      show (s.ledger ++ _).take s.ledger.length = s.ledger
      exact List.take_left s.ledger _
    · intro r hr
      rw [dispatchW_eq] at hr
      have hr2 : r ∈ (s.ledger ++ recordsFor u e p net now s.nextId
          (resolveHooks s u)).drop s.ledger.length := hr
      rw [List.drop_left] at hr2
      obtain ⟨ha, _, _, _, _, _, w2, hw2, hdel⟩ := mem_recordsFor hr2
      refine ⟨ha, ?_⟩
      cases hb : net w2.url
      · exact Or.inl (by simp [hdel, hb])
      · exact Or.inr ⟨by simp [hdel, hb], w2, hw2, hb⟩
  · refine ⟨hrel.1.trans rfl, fun i h0 h1 => ?_⟩
    obtain ⟨e1, _, _, _, _, hle, hsome, hchg⟩ := hrel.2 i h0 h1
    refine ⟨e1, hle, hsome, fun hne => ?_⟩
    obtain ⟨hsn, q, hq, hqid, hqnet⟩ := hchg hne
    exact ⟨hsn, q, hq, batch_record_eq hnd hq h0 hqid, hqnet⟩

/-- C7 witness at a concrete state. -/
theorem c7_ledger_invariants_witness :
    ((c3State.ledger.map fun r => r.id).Nodup) ∧
    (dispatchW c3State 7 "note.updated" "p" (fun _ => true) 50).ledger.take
      c3State.ledger.length = c3State.ledger :=
  ⟨by decide, ((c7_ledger_invariants c3State 7 "note.updated" "p"
    (fun _ => true) 50 (by decide)).1).1⟩

/-- C8 counterexample: in `c8State` the record's originating subscription
(`hookA`, id 1) has been deactivated after the record was created, yet the
record remains selected (the worker joins on `user_id` only) and a delivery
attempt is made — against the other webhook's URL.  This refutes the claim
that such a record is never attempted again. -/
theorem c8_retry_despite_deactivation :
    (∀ w ∈ c8State.webhooks, w.id = hookA.id → w.active = false) ∧
    (c8State.ledger.map fun r => (r.id, r.deliveredAt, r.attempts)) =
      [(100, none, 1)] ∧
    tickAttempts c8State = ["https://b.example/cb"] ∧
    (batchW c8State).map (fun q => q.1.id) = [100] := by
  refine ⟨by decide, by decide, by decide, by decide⟩

/-- C8 amended: a Delivery Record is excluded from every tick while its
owning user has no active subscription at all; deactivating the originating
subscription stops retries only in that case. -/
theorem c8_inactive_exclusion_amended (s : St) (u : Nat)
    (hin : ∀ w ∈ s.webhooks, w.userId = u → w.active = false) :
    ∀ q ∈ batchW s, q.1.userId ≠ u := by
  intro q hq hqu
  obtain ⟨_, _, _, hw, hac, huid⟩ := mem_eligible (batch_sub_eligible hq)
  have hfalse := hin q.2 hw (huid.trans hqu)
  rw [hac] at hfalse
  exact Bool.noConfusion hfalse

/-- C8 amended witness: with every subscription of user 7 inactive, the
pending record of `c8State`'s ledger is not selected. -/
theorem c8_inactive_exclusion_amended_witness :
    (∀ w ∈ c8StateOff.webhooks, w.userId = 7 → w.active = false) ∧
    ∀ q ∈ batchW c8StateOff, q.1.userId ≠ 7 :=
  ⟨by decide, c8_inactive_exclusion_amended c8StateOff 7 (by decide)⟩

/-- C10: every reachable ledger row has `attempts ≥ 1` — the dispatcher
inserts rows only with `attempts = 1` (overriding the schema default of 0,
after its first HTTP attempt has settled) and the worker only increments,
so no row with `attempts = 0` is ever reachable. -/
theorem c10_attempts_start_at_one {s : St} (hs : Reach s) :
    ∀ r ∈ s.ledger, 1 ≤ r.attempts := by
  induction hs with
  | init ws n => intro r hr; exact absurd hr (List.not_mem_nil r)
  | step hre hstep ih =>
    intro r hr
    cases hstep with
    | dispatch u e p net now =>
      rw [dispatchW_eq] at hr
      rcases List.mem_append.mp hr with hr | hr
      · exact ih r hr
      · exact Nat.le_of_eq (mem_recordsFor hr).1.symm
    | tick net now =>
      obtain ⟨r0, hr0, _, _, _, _, _, hle⟩ := ledFold_mem hr
      exact Nat.le_trans (ih r0 hr0) hle
    | registry ws => exact ih r hr

/-- C10 witness: a concrete reachable state with a concrete ledger row. -/
theorem c10_attempts_start_at_one_witness :
    Reach c1State ∧
    1 ≤ ({ id := 100, userId := 7, event := "favorite.added", payload := "p",
           createdAt := 0, deliveredAt := none, attempts := 1 } :
          DeliveryRecord).attempts :=
  ⟨Reach.step (Reach.init [hookA] 100)
      (Step.dispatch (singleHookSt hookA 100) 7 "favorite.added" "p"
        (fun _ => false) 0),
   c10_attempts_start_at_one
     (Reach.step (Reach.init [hookA] 100)
       (Step.dispatch (singleHookSt hookA 100) 7 "favorite.added" "p"
         (fun _ => false) 0))
     _ (by decide)⟩

/-- C5 counterexample: (a) a browser-mode `createWebhook` call whose
`events` argument is not a subset of the taxonomy is not rejected — the
invalid name is silently filtered and a subscription row is persisted; and
(b) an API-mode call with an empty `events` array is not rejected and
persists a subscription with an empty event set.  Both contradict the claim
that such calls fail with a validation error and persist nothing. -/
theorem c5_nonsubset_events_persisted :
    ("bogus.event" ∉ ALLOWED_WEBHOOK_EVENTS) ∧
    createWebhook (fun _ => some "http:") false true 7
        "http://example.com/hook" "sec"
        (some (.arr ["note.updated", "bogus.event"])) =
      some { userId := 7, url := "http://example.com/hook", secret := "sec",
             eventsCsv := "note.updated", active := true } ∧
    createWebhook (fun _ => some "http:") false false 7
        "http://example.com/hook" "sec" (some (.arr [])) =
      some { userId := 7, url := "http://example.com/hook", secret := "sec",
             eventsCsv := "", active := true } := by
  refine ⟨by decide, by decide, by decide⟩

/-- C5 amended: both registration endpoints reject unparseable URLs,
non-http(s) schemes, and non-https URLs in production, persisting nothing;
an API-mode call is additionally rejected when any normalized event name is
outside the taxonomy; and every persisted row's event CSV is the join of a
taxonomy-subset list, which is non-empty on the browser and admin paths
(API-mode may persist an empty list when the `events` array is empty). -/
theorem c5_validation_amended (pp : String → Option String)
    (prod br : Bool) (uid : Nat) (url sec : String)
    (evs : Option EventsInput) :
    (pp url = none →
      createWebhook pp prod br uid url sec evs = none ∧
      createUserWebhook pp prod uid url sec evs = none) ∧
    (∀ proto, pp url = some proto →
      ¬ (proto = "http:" ∨ proto = "https:") →
      createWebhook pp prod br uid url sec evs = none ∧
      createUserWebhook pp prod uid url sec evs = none) ∧
    (∀ proto, pp url = some proto → prod = true → proto ≠ "https:" →
      createWebhook pp prod br uid url sec evs = none ∧
      createUserWebhook pp prod uid url sec evs = none) ∧
    (br = false →
      (∃ ev ∈ normalizedEventsOf evs, ev ∉ ALLOWED_WEBHOOK_EVENTS) →
      createWebhook pp prod br uid url sec evs = none) ∧
    (∀ row, createWebhook pp prod br uid url sec evs = some row →
      row.eventsCsv = String.intercalate "," (validEventsOf evs) ∧
      (∀ ev ∈ validEventsOf evs, ev ∈ ALLOWED_WEBHOOK_EVENTS) ∧
      (br = true → validEventsOf evs ≠ [])) ∧
    (∀ row, createUserWebhook pp prod uid url sec evs = some row →
      row.eventsCsv = String.intercalate "," (adminValidEventsOf evs) ∧
      (∀ ev ∈ adminValidEventsOf evs, ev ∈ ALLOWED_WEBHOOK_EVENTS) ∧
      adminValidEventsOf evs ≠ []) := by
  refine ⟨?_, ?_, ?_, ?_, ?_, ?_⟩
  · intro hp
    constructor
    · rcases createWebhook_cases pp prod br uid url sec evs with h | ⟨proto, hpp, _⟩
      · exact h
      · rw [hp] at hpp
        exact Option.noConfusion hpp
    · rcases createUserWebhook_cases pp prod uid url sec evs with h | ⟨proto, hpp, _⟩
      · exact h
      · rw [hp] at hpp
        exact Option.noConfusion hpp
  · intro proto hp hbad
    constructor
    · rcases createWebhook_cases pp prod br uid url sec evs with h | ⟨proto2, hpp, hallow, _⟩
      · exact h
      · rw [hp] at hpp
        rw [Option.some.inj hpp] at hbad
        exact absurd hallow hbad
    · rcases createUserWebhook_cases pp prod uid url sec evs with h | ⟨proto2, hpp, hallow, _⟩
      · exact h
      · rw [hp] at hpp
        rw [Option.some.inj hpp] at hbad
        exact absurd hallow hbad
  · intro proto hp hprod hnh
    constructor
    · rcases createWebhook_cases pp prod br uid url sec evs with h | ⟨proto2, hpp, _, hps, _⟩
      · exact h
      · rw [hp] at hpp
        rw [Option.some.inj hpp] at hnh
        exact absurd (hps hprod) hnh
    · rcases createUserWebhook_cases pp prod uid url sec evs with h | ⟨proto2, hpp, _, hps, _⟩
      · exact h
      · rw [hp] at hpp
        rw [Option.some.inj hpp] at hnh
        exact absurd (hps hprod) hnh
  · intro hbf hex
    rcases createWebhook_cases pp prod br uid url sec evs with h | ⟨proto, _, _, _, hapi, _⟩
    · exact h
    · obtain ⟨ev, hev, hnev⟩ := hex
      exact absurd (hapi hbf ev hev) hnev
  · intro row hrow
    rcases createWebhook_cases pp prod br uid url sec evs with h | ⟨proto, _, _, _, _, hbr, heq⟩
    · rw [h] at hrow
      exact Option.noConfusion hrow
    · rw [heq] at hrow
      rw [← Option.some.inj hrow]
      exact ⟨rfl, validEventsOf_subset evs, hbr⟩
  · intro row hrow
    rcases createUserWebhook_cases pp prod uid url sec evs with h | ⟨proto, _, _, _, hne, heq⟩
    · rw [h] at hrow
      exact Option.noConfusion hrow
    · rw [heq] at hrow
      rw [← Option.some.inj hrow]
      exact ⟨rfl, adminValidEventsOf_subset evs, hne⟩

/-- C9 counterexample: the signer is the hex encoding of a 256-bit
HMAC-SHA256 digest, while bodies are unbounded, so for a fixed secret and
timestamp two distinct bodies with identical digests must exist
(pigeonhole).  This refutes "changing any one of the three inputs changes
the digest" as a universal statement — no concrete collision is feasibly
computable, but the function cannot be injective. -/
theorem c9_digest_collision_exists :
    ∃ b1 b2 : List Nat, b1 ≠ b2 ∧
      signWebhook [115, 101, 99] 1700000000000 b1 =
        signWebhook [115, 101, 99] 1700000000000 b2 := by
  have hfin : ∀ n : Nat, c9Digest n < 256 ^ 32 :=
    fun n => encBytes_hmac_lt [115, 101, 99]
      (signMessage 1700000000000 (c9Body n))
  obtain ⟨n, m, hnm, hf⟩ := Finite.exists_ne_map_eq_of_infinite
    (fun n : Nat => (⟨c9Digest n, hfin n⟩ : Fin (256 ^ 32)))
  have hval : c9Digest n = c9Digest m := Fin.mk_eq_mk.mp hf
  have hbytes : hmacSha256 [115, 101, 99]
      (signMessage 1700000000000 (c9Body n)) =
    hmacSha256 [115, 101, 99] (signMessage 1700000000000 (c9Body m)) :=
    encBytes_inj
      (hmacSha256 [115, 101, 99] (signMessage 1700000000000 (c9Body n)))
      (hmacSha256 [115, 101, 99] (signMessage 1700000000000 (c9Body m)))
      ((hmacSha256_length _ _).trans (hmacSha256_length _ _).symm)
      (fun b hb => hmacSha256_mem_lt hb)
      (fun b hb => hmacSha256_mem_lt hb) hval
  refine ⟨c9Body n, c9Body m, ?_, ?_⟩
  · intro hrep
    apply hnm
    have := congrArg List.length hrep
    simpa [c9Body] using this
  · show hexEncode (hmacSha256 [115, 101, 99]
      (signMessage 1700000000000 (c9Body n))) = _
    rw [hbytes]
    rfl

/-- C9 amended: the signer hex-encodes the HMAC-SHA256, keyed by the
secret, of the byte string `decimal timestamp ++ "." ++ body`; it is a
pure function of the `(secret, timestamp, body)` triple (determinism is
definitional in this embedding), distinct `(timestamp, body)` pairs always
produce distinct MAC input strings (the decimal rendering contains no `.`),
and every digest is exactly 64 hex characters — so collisions of the
digest itself exist only by pigeonhole, never from ambiguity of the signed
message. -/
theorem c9_signer_amended :
    (∀ t b t2 b2, signMessage t b = signMessage t2 b2 ↔ (t = t2 ∧ b = b2)) ∧
    (∀ secret t b, (signWebhook secret t b).length = 64) := by
  refine ⟨signMessage_inj, fun secret t b => ?_⟩
  show (hexEncode (hmacSha256 secret (signMessage t b))).length = 64
  rw [hexEncode_length, hmacSha256_length]

/-- C9 amended witness. -/
theorem c9_signer_amended_witness :
    (signMessage 12 [7] = signMessage 12 [7] ↔ (12 = 12 ∧ [7] = [7])) ∧
    (signWebhook [115] 12 [7]).length = 64 :=
  ⟨c9_signer_amended.1 12 [7] 12 [7], c9_signer_amended.2 [115] 12 [7]⟩

/-- C5 amended witness: an unparseable URL is rejected by both endpoints. -/
theorem c5_validation_amended_witness :
    ((fun _ : String => (none : Option String)) "nonsense" = none) ∧
    (createWebhook (fun _ => none) false false 7 "nonsense" "s"
        (some (.arr ["note.updated"])) = none ∧
     createUserWebhook (fun _ => none) false 7 "nonsense" "s"
        (some (.arr ["note.updated"])) = none) :=
  ⟨rfl, (c5_validation_amended (fun _ => none) false false 7 "nonsense" "s"
    (some (.arr ["note.updated"]))).1 rfl⟩

end Peji
